import Mathlib

/-!
Verification of the audit-utils repository: a shallow embedding in Lean 4 of
the integrity-relevant parts of audit_logger.py, audit_image.py and
mask_pii.py, together with theorems settling the specified properties.

Modelling conventions, used throughout:

- Bytes are Fin 256; Python bytes objects are List Byte.
- The cryptographic primitives supplied by hashlib and the cryptography
  package (SHA-256, RSA-PSS sign/verify, AES-GCM) are parameters of the
  embedding: the structures Crypto and GCMCipher carry them as abstract
  functions.  Everything the source code itself does (serialization, hex
  encoding and decoding, chaining, state updates, file layout) is modelled
  concretely from the source.
- Effects are explicit: datetime.utcnow() becomes a timestamp argument,
  os.urandom becomes a fresh-bytes argument, the file system becomes a value
  threaded through the functions, and a raised Python exception becomes an
  Except.error result (mutations performed before the raise are kept, exactly
  as in Python, where the object outlives the exception).
- json.dumps(obj, sort_keys=True) is modelled by Json.dumps below on a Json
  value type covering the shapes audit entries use (floats are outside the
  modelled fragment).  Python compares strings by code points; charListLe
  below is that order.
-/

abbrev Byte := Fin 256

/-! ## Hex encoding and decoding

bytes.hex() produces lowercase hex pairs; bytes.fromhex() accepts lowercase
and uppercase digits and allows ASCII spaces between byte pairs, and raises
ValueError otherwise (modelled as none). -/

def hexDigitChar (n : Nat) : Char :=
  if n < 10 then Char.ofNat (48 + n) else Char.ofNat (87 + n)

def hexEncode (bs : List Byte) : String :=
  String.mk ((bs.map (fun b => [hexDigitChar (b.val / 16), hexDigitChar (b.val % 16)])).flatten)

def hexDigitVal (c : Char) : Option (Fin 16) :=
  if h : 48 ≤ c.toNat ∧ c.toNat ≤ 57 then some ⟨c.toNat - 48, by omega⟩
  else if h2 : 97 ≤ c.toNat ∧ c.toNat ≤ 102 then some ⟨c.toNat - 87, by omega⟩
  else if h3 : 65 ≤ c.toNat ∧ c.toNat ≤ 70 then some ⟨c.toNat - 55, by omega⟩
  else none

def hexDecodeAux : List Char → Option (List Byte)
  | [] => some []
  | c :: rest =>
    if c = ' ' then hexDecodeAux rest
    else
      match rest with
      | [] => none
      | c2 :: rest2 =>
        match hexDigitVal c, hexDigitVal c2 with
        | some h, some l =>
          (hexDecodeAux rest2).map
            (fun bs => (⟨16 * h.val + l.val, by
              have hh := h.isLt
              have hl := l.isLt
              omega⟩ : Byte) :: bs)
        | _, _ => none

def hexDecode (s : String) : Option (List Byte) := hexDecodeAux s.data

/-! ## Python string comparison

Python compares strings lexicographically by code point; json.dumps with
sort_keys=True sorts dictionary keys with this order. -/

def charListLe : List Char → List Char → Bool
  | [], _ => true
  | _ :: _, [] => false
  | a :: as, b :: bs =>
    if a.toNat < b.toNat then true
    else if b.toNat < a.toNat then false
    else charListLe as bs

def keyLe (a b : String × String) : Prop := charListLe a.1.data b.1.data = true

instance : DecidableRel keyLe := fun _ _ => inferInstanceAs (Decidable (_ = true))

def sortPairs (l : List (String × String)) : List (String × String) :=
  List.insertionSort keyLe l

/-! ## JSON values and json.dumps(obj, sort_keys=True)

The value type covers the JSON fragment audit entries are built from.
Serialization follows the CPython json encoder with its default arguments as
used in the source: separators (", ", ": "), sort_keys=True, ensure_ascii
escaping.  One refactoring is applied to obtain structural recursion: the
encoder sorts the items of an object by key and then serializes each value,
while Json.dumps serializes each value first and then sorts the
(key, rendered value) pairs by key; since the comparison looks only at keys,
the two produce identical output. -/

inductive Json where
  | null
  | bool (b : Bool)
  | num (n : Int)
  | str (s : String)
  | arr (elems : List Json)
  | obj (fields : List (String × Json))

def hex4 (n : Nat) : String :=
  String.mk [hexDigitChar (n / 4096 % 16), hexDigitChar (n / 256 % 16),
             hexDigitChar (n / 16 % 16), hexDigitChar (n % 16)]

def escapeChar (c : Char) : String :=
  if c = '"' then "\\\""
  else if c = '\\' then "\\\\"
  else if c = '\n' then "\\n"
  else if c = '\r' then "\\r"
  else if c = '\t' then "\\t"
  else if c.toNat = 8 then "\\b"
  else if c.toNat = 12 then "\\f"
  else if c.toNat < 32 ∨ 126 < c.toNat then
    if c.toNat < 65536 then "\\u" ++ hex4 c.toNat
    else
      "\\u" ++ hex4 (55296 + (c.toNat - 65536) / 1024) ++
      "\\u" ++ hex4 (56320 + (c.toNat - 65536) % 1024)
  else String.mk [c]

def encodeJsonString (s : String) : String :=
  "\"" ++ String.join (s.data.map escapeChar) ++ "\""

def joinComma (l : List String) : String := String.intercalate ", " l

def renderPair (p : String × String) : String :=
  encodeJsonString p.1 ++ ": " ++ p.2

mutual
def Json.dumps : Json → String
  | .null => "null"
  | .bool b => if b then "true" else "false"
  | .num n => toString n
  | .str s => encodeJsonString s
  | .arr xs => "[" ++ joinComma (Json.dumpsList xs) ++ "]"
  | .obj kvs => "\x7b" ++ joinComma ((sortPairs (Json.dumpsPairs kvs)).map renderPair) ++ "\x7d"
def Json.dumpsList : List Json → List String
  | [] => []
  | x :: xs => Json.dumps x :: Json.dumpsList xs
def Json.dumpsPairs : List (String × Json) → List (String × String)
  | [] => []
  | kv :: kvs => (kv.1, Json.dumps kv.2) :: Json.dumpsPairs kvs
end

/-- Python truthiness for the values a Json can take; the source guards the
optional image_audit dictionary with a bare if, so an empty dictionary is
treated like None. -/
def Json.pyTruthy : Json → Bool
  | .null => false
  | .bool b => b
  | .num n => n != 0
  | .str s => !s.isEmpty
  | .arr xs => !xs.isEmpty
  | .obj kvs => !kvs.isEmpty

def optTruthy : Option Json → Bool
  | none => false
  | some j => j.pyTruthy

/-! ## AuditLogger (audit_logger.py)

The RSA key pair and SHA-256 are abstract: Crypto.sha256hex models
hashlib.sha256(data.encode()).hexdigest() (AuditLogger._hash_data),
Crypto.rsaSign models private_key.sign(...) returning bytes
(AuditLogger._sign_data before .hex()), and Crypto.rsaVerify models
public_key.verify succeeding (true) or raising InvalidSignature (false). -/

structure Crypto where
  sha256hex : String → String
  rsaSign : String → List Byte
  rsaVerify : List Byte → String → Bool

def hash_data (C : Crypto) (data : String) : String := C.sha256hex data

def sign_data (C : Crypto) (data : String) : String := hexEncode (C.rsaSign data)

/-- The integrity dictionary of an audit entry as verify_signature receives
it: a Python dict whose keys may be missing (none). -/
structure IntegrityBlock where
  log_hash : Option String
  previous_hash : Option String
  signature : Option String
  signature_algorithm : Option String

/-- An audit log entry; integrity = none models a dict with no integrity
key.  Entries produced by log always carry a fully populated block. -/
structure AuditEntry where
  id : String
  timestamp : String
  request : Json
  response : Json
  image_audit : Option Json
  integrity : Option IntegrityBlock

def AuditEntry.logHash (e : AuditEntry) : Option String :=
  e.integrity.bind (fun it => it.log_hash)

def AuditEntry.prevHash (e : AuditEntry) : Option String :=
  e.integrity.bind (fun it => it.previous_hash)

def AuditEntry.sigHex (e : AuditEntry) : Option String :=
  e.integrity.bind (fun it => it.signature)

/-- Arguments of one AuditLogger.log call; timestamp stands for the
datetime.utcnow().isoformat() + "Z" string drawn inside the call. -/
structure LogInput where
  trace_id : String
  timestamp : String
  request : Json
  response : Json
  image_audit : Option Json

/-- AuditLogger.__init__ line 54: self.previous_hash = "0" * 64. -/
def genesisHash : String := String.mk (List.replicate 64 '0')

/-- The mutable chain cursor self.previous_hash of one AuditLogger. -/
structure AuditLoggerState where
  previous_hash : String

def initialLogger : AuditLoggerState := ⟨genesisHash⟩

/-- The audit_log dictionary as built by log before the integrity section is
added (lines 150-158): insertion order id, timestamp, request, response,
then image_audit only when truthy. -/
def auditLogPairs (x : LogInput) : List (String × Json) :=
  [("id", .str x.trace_id), ("timestamp", .str x.timestamp),
   ("request", x.request), ("response", x.response)] ++
  (if optTruthy x.image_audit then [("image_audit", x.image_audit.getD .null)] else [])

/-- log_content = json.dumps(audit_log, sort_keys=True) (line 161), taken
before the integrity block exists, hence over the content fields only. -/
def logContent (x : LogInput) : String := Json.dumps (.obj (auditLogPairs x))

/-- AuditLogger.log (lines 135-179): hash the canonical serialization, sign
log_hash ++ ":" ++ previous_hash, attach the integrity block, advance the
cursor to log_hash, return the entry. -/
def AuditLoggerState.log (C : Crypto) (st : AuditLoggerState) (x : LogInput) :
    AuditEntry × AuditLoggerState :=
  let log_hash := hash_data C (logContent x)
  let signature := sign_data C (log_hash ++ ":" ++ st.previous_hash)
  ({ id := x.trace_id
     timestamp := x.timestamp
     request := x.request
     response := x.response
     image_audit := if optTruthy x.image_audit then x.image_audit else none
     integrity := some
       { log_hash := some log_hash
         previous_hash := some st.previous_hash
         signature := some signature
         signature_algorithm := some "RSA-SHA256" } },
   ⟨log_hash⟩)

/-- A sequence of log calls on one logger under correct serialization. -/
def runLog (C : Crypto) (st : AuditLoggerState) : List LogInput → List AuditEntry × AuditLoggerState
  | [] => ([], st)
  | x :: xs =>
    ((st.log C x).1 :: (runLog C (st.log C x).2 xs).1, (runLog C (st.log C x).2 xs).2)

/-- AuditLogger.verify_signature (lines 181-208).  The try block turns every
failure into False: a missing integrity dict or missing key (KeyError), a
non-hex signature (ValueError from bytes.fromhex), and a bad signature
(InvalidSignature from public_key.verify). -/
def verify_signature (C : Crypto) (e : AuditEntry) : Bool :=
  match e.integrity with
  | none => false
  | some it =>
    match it.log_hash, it.previous_hash, it.signature with
    | some lh, some ph, some s =>
      match hexDecode s with
      | none => false
      | some bytes => C.rsaVerify bytes (lh ++ ":" ++ ph)
    | _, _, _ => false

/-! Tampering helpers: rewrite one field of an entry after it was produced. -/

def withIntegrity (e : AuditEntry) (it : Option IntegrityBlock) : AuditEntry :=
  { e with integrity := it }

def withSignature (e : AuditEntry) (s : String) : AuditEntry :=
  { e with integrity := e.integrity.map (fun it => { it with signature := some s }) }

def withLogHash (e : AuditEntry) (lh : String) : AuditEntry :=
  { e with integrity := e.integrity.map (fun it => { it with log_hash := some lh }) }

def withPrevHash (e : AuditEntry) (ph : String) : AuditEntry :=
  { e with integrity := e.integrity.map (fun it => { it with previous_hash := some ph }) }

/-! ## Fallible log (for the cursor-atomicity claim)

CryptoE refines Crypto with primitives that may raise.  logE mirrors log
statement by statement: the only mutation of self.previous_hash happens
after hashing and signing both succeeded (source line 177), so a raise from
either leaves the cursor untouched and returns no entry. -/

structure CryptoE where
  sha256hex : String → Except String String
  rsaSign : String → Except String (List Byte)

def AuditLoggerState.logE (CE : CryptoE) (st : AuditLoggerState) (x : LogInput) :
    Except String AuditEntry × AuditLoggerState :=
  match CE.sha256hex (logContent x) with
  | .error err => (.error err, st)
  | .ok log_hash =>
    match CE.rsaSign (log_hash ++ ":" ++ st.previous_hash) with
    | .error err => (.error err, st)
    | .ok sigBytes =>
      (.ok { id := x.trace_id
             timestamp := x.timestamp
             request := x.request
             response := x.response
             image_audit := if optTruthy x.image_audit then x.image_audit else none
             integrity := some
               { log_hash := some log_hash
                 previous_hash := some st.previous_hash
                 signature := some (hexEncode sigBytes)
                 signature_algorithm := some "RSA-SHA256" } },
       ⟨log_hash⟩)

/-! ## File system model

A flat map from paths to byte contents.  open(path, "wb") followed by write
replaces the content at that path (or creates it); this is the overwrite
semantics of the source.  Directories (os.makedirs) carry no data and are
not modelled. -/

def FS := String → Option (List Byte)

def FS.write (fs : FS) (p : String) (v : List Byte) : FS :=
  fun q => if q = p then some v else fs q

/-! ## Key material handling (AuditLogger.__init__ lines 43-51,
ImageAuditor.__init__ lines 49-63)

os.urandom(32) and rsa.generate_private_key are modelled by the fresh-bytes
arguments; loading parses the stored bytes verbatim (PEM parsing itself is
outside the model, so a key is its byte content).  AuditLogger checks only
the private key path; when the private key exists but the public key file is
absent, _load_public_key raises FileNotFoundError, modelled as an error
result.  No branch writes when the key file exists. -/

def private_key_file (key_dir : String) : String := key_dir ++ "/audit_private_key.pem"

def public_key_file (key_dir : String) : String := key_dir ++ "/audit_public_key.pem"

def image_key_file (key_dir : String) : String := key_dir ++ "/image_encryption_key.bin"

def loggerInitKeys (key_dir : String) (freshPriv freshPub : List Byte) (fs : FS) :
    Except String (List Byte × List Byte) × FS :=
  match fs (private_key_file key_dir) with
  | some priv =>
    match fs (public_key_file key_dir) with
    | some pub => (.ok (priv, pub), fs)
    | none => (.error "Public key not found", fs)
  | none =>
    (.ok (freshPriv, freshPub),
     (fs.write (private_key_file key_dir) freshPriv).write (public_key_file key_dir) freshPub)

def imageInitKey (key_dir : String) (fresh : List Byte) (fs : FS) : List Byte × FS :=
  match fs (image_key_file key_dir) with
  | some k => (k, fs)
  | none => (fresh, fs.write (image_key_file key_dir) fresh)

/-! ## ImageAuditor.audit_image and _encrypt_file (audit_image.py)

AES-256-GCM is abstract: GCMCipher.tag and GCMCipher.ct give the 16-byte
authentication tag and the ciphertext as functions of key, IV and plaintext.
_encrypt_file (lines 73-99) returns iv ++ tag ++ ciphertext with a fresh
12-byte IV from os.urandom, which is the iv argument here.  The image file
content is passed as bytes; _calculate_hash streams SHA-256 over exactly
those bytes (sha256hex argument). -/

structure GCMCipher where
  tag : List Byte → List Byte → List Byte → List Byte
  ct : List Byte → List Byte → List Byte → List Byte

def encrypt_file (G : GCMCipher) (key iv plaintext : List Byte) : List Byte :=
  iv ++ G.tag key iv plaintext ++ G.ct key iv plaintext

/-- storage_path = os.path.join(storage_dir, image_hash[:8], image_hash + ".enc")
(lines 119-120). -/
def storagePathOf (storage_dir image_hash : String) : String :=
  storage_dir ++ "/" ++ image_hash.take 8 ++ "/" ++ image_hash ++ ".enc"

structure ImageMeta where
  image_hash : String
  encryption_status : String
  storage_path : String
  ttl : String
  deletion_scheduled : String
  key_management : String
  trace_id : String
  timestamp : String
  limitations : String

/-- ImageAuditor.audit_image (lines 101-143); nowIso and deletionIso stand
for the two datetime.utcnow() derived strings. -/
def audit_image (sha256hex : List Byte → String) (G : GCMCipher)
    (encryption_key : List Byte) (storage_dir : String) (fs : FS)
    (image iv : List Byte) (trace_id nowIso deletionIso : String) :
    ImageMeta × FS :=
  let image_hash := sha256hex image
  let encrypted_data := encrypt_file G encryption_key iv image
  let storage_path := storagePathOf storage_dir image_hash
  ({ image_hash := "sha256:" ++ image_hash
     encryption_status := "AES-256-GCM"
     storage_path := storage_path
     ttl := "7days"
     deletion_scheduled := deletionIso
     key_management := "phase2_local_kms_pending"
     trace_id := trace_id
     timestamp := nowIso
     limitations := "Key management: manual rotation, PII detection: not implemented" },
   fs.write storage_path encrypted_data)

/-! ## ImageAuditor.cleanup_expired (lines 145-163)

The store is the list of files os.walk visits, each with its path and its
modification time as an epoch-seconds integer.  The source compares
datetime.fromtimestamp(os.path.getmtime(p)) - a NAIVE LOCAL time, equal to
epoch + tzOffset where tzOffset is the local-UTC offset in seconds - with
datetime.utcnow(), a naive UTC time equal to the current epoch value; the
timedelta .days field is floor division by 86400 seconds (Int.fdiv).
os.remove is not wrapped in try/except, so a deletion failure (removeFails)
propagates as an exception, ending the walk; files already removed stay
removed and the count is lost. -/

def pyEndsWith (s suffix : String) : Bool := List.isSuffixOf suffix.data s.data

structure StoredFile where
  path : String
  mtime : Int

def ageDays (now tzOffset : Int) (f : StoredFile) : Int :=
  Int.fdiv (now - (f.mtime + tzOffset)) 86400

def isExpired (now tzOffset : Int) (f : StoredFile) : Bool :=
  pyEndsWith f.path ".enc" && decide (7 ≤ ageDays now tzOffset f)

def cleanup_expired (now tzOffset : Int) (removeFails : String → Bool) :
    List StoredFile → Except String Nat × List StoredFile
  | [] => (.ok 0, [])
  | f :: fs =>
    if isExpired now tzOffset f then
      if removeFails f.path then (.error ("os.remove failed: " ++ f.path), f :: fs)
      else
        match cleanup_expired now tzOffset removeFails fs with
        | (.ok n, rest) => (.ok (n + 1), rest)
        | (.error err, rest) => (.error err, rest)
    else
      match cleanup_expired now tzOffset removeFails fs with
      | (r, rest) => (r, f :: rest)

/-! ## calculate_pii_score (mask_pii.py lines 65-83)

The regex engine is the external collaborator: findall pattern text stands
for re.findall(pattern, text).  The patterns are copied from PII_PATTERNS.
The score arithmetic is modelled over the rationals; Python round uses
round-half-to-even, modelled by roundHalfEven. -/

def PII_PATTERNS : List (String × String) :=
  [("email", "\\b[A-Za-z0-9._%+-]+@[A-Za-z0-9.-]+\\.[A-Z|a-z]\x7b2,\x7d\\b"),
   ("phone_jp", "\\b0\\d\x7b1,4\x7d-\\d\x7b1,4\x7d-\\d\x7b4\x7d\\b"),
   ("phone_intl", "\\+81[-\\s]?\\d\x7b1,4\x7d[-\\s]?\\d\x7b1,4\x7d[-\\s]?\\d\x7b4\x7d\\b"),
   ("my_number", "\\b\\d\x7b4\x7d-\\d\x7b4\x7d-\\d\x7b4\x7d\\b"),
   ("zip_code_jp", "\\b\\d\x7b3\x7d-\\d\x7b4\x7d\\b"),
   ("credit_card", "\\b\\d\x7b4\x7d[\\s-]?\\d\x7b4\x7d[\\s-]?\\d\x7b4\x7d[\\s-]?\\d\x7b4\x7d\\b"),
   ("ipv4", "\\b\\d\x7b1,3\x7d\\.\\d\x7b1,3\x7d\\.\\d\x7b1,3\x7d\\.\\d\x7b1,3\x7d\\b")]

def roundHalfEven (x : ℚ) : ℤ :=
  if x - ⌊x⌋ < 1/2 then ⌊x⌋
  else if 1/2 < x - ⌊x⌋ then ⌊x⌋ + 1
  else if 2 ∣ ⌊x⌋ then ⌊x⌋ else ⌊x⌋ + 1

/-- round(x, 2) on the modelled rationals. -/
def round2 (x : ℚ) : ℚ := (roundHalfEven (x * 100) : ℚ) / 100

def calculate_pii_score (findall : String → String → List String) (text : String) : ℚ :=
  let total_chars := text.length
  if total_chars = 0 then 0
  else
    let pii_chars := (PII_PATTERNS.map
      (fun kv => ((findall kv.2 text).map String.length).sum)).sum
    round2 (min ((pii_chars : ℚ) / (total_chars : ℚ)) 1)

/-! ## Concrete instances used by witnesses and counterexamples

The abstract primitives are instantiated with simple executable stand-ins.
strBytes is an injective String to bytes encoding (each char as three
base-256 digits of its code point); the toy signature scheme signs a message
as its encoding and accepts exactly that encoding, which satisfies the
idealized signature hypotheses the theorems take. -/

def charBytes (c : Char) : List Byte :=
  [⟨c.toNat / 65536, by
      have h := c.valid
      rcases h with h | ⟨h1, h2⟩ <;> simp only [Char.toNat] <;> omega⟩,
   ⟨c.toNat / 256 % 256, by omega⟩,
   ⟨c.toNat % 256, by omega⟩]

def strBytes (s : String) : List Byte := (s.data.map charBytes).flatten

def toyCrypto : Crypto :=
  { sha256hex := fun s => s
    rsaSign := strBytes
    rsaVerify := fun s d => s == strBytes d }

/-- Like toyCrypto but hashing to a short constant, convenient for concrete
evaluation. -/
def cexCrypto : Crypto :=
  { sha256hex := fun _ => "z"
    rsaSign := strBytes
    rsaVerify := fun s d => s == strBytes d }

/-- Maps lowercase a to uppercase A; flips the case of the hex letter bytes
of a signature string without changing its hex decoding. -/
def upperA (s : String) : String :=
  String.mk (s.data.map (fun c => if c = 'a' then 'A' else c))

def cexInput : LogInput :=
  { trace_id := "t", timestamp := "ts", request := .obj [], response := .obj [], image_audit := none }

def cexInput2 : LogInput :=
  { trace_id := "u", timestamp := "ts2", request := .obj [], response := .obj [], image_audit := none }

def ceFail : CryptoE :=
  { sha256hex := fun _ => .error "hash unavailable"
    rsaSign := fun _ => .ok [] }

def ceOk : CryptoE :=
  { sha256hex := fun s => .ok s
    rsaSign := fun d => .ok (strBytes d) }

def toyGCM : GCMCipher := { tag := fun _ _ _ => [], ct := fun _ _ _ => [] }

def toySha (_ : List Byte) : String := "hhhhhhhhhh"

def iv1 : List Byte := List.replicate 12 0

def iv2 : List Byte := 1 :: List.replicate 11 0

def emptyFS : FS := fun _ => none

/-! # Theorems -/

/-! ## Helper lemmas about log and runLog -/

theorem log_fst_prevHash (C : Crypto) (st : AuditLoggerState) (x : LogInput) :
    ((st.log C x).1).prevHash = some st.previous_hash := rfl

theorem log_fst_logHash (C : Crypto) (st : AuditLoggerState) (x : LogInput) :
    ((st.log C x).1).logHash = some (hash_data C (logContent x)) := rfl

theorem log_snd_prev (C : Crypto) (st : AuditLoggerState) (x : LogInput) :
    ((st.log C x).2).previous_hash = hash_data C (logContent x) := rfl

theorem runLog_length (C : Crypto) (xs : List LogInput) :
    ∀ st : AuditLoggerState, (runLog C st xs).1.length = xs.length := by
  induction xs with
  | nil => intro st; rfl
  | cons x xs ih => intro st; simp [runLog, ih]

theorem runLog_head_prev (C : Crypto) (st : AuditLoggerState) (xs : List LogInput)
    (h : 0 < (runLog C st xs).1.length) :
    ((runLog C st xs).1.get ⟨0, h⟩).prevHash = some st.previous_hash := by
  cases xs with
  | nil => simp [runLog] at h
  | cons x xs => exact log_fst_prevHash C st x

theorem runLog_chain_aux (C : Crypto) :
    ∀ (xs : List LogInput) (st : AuditLoggerState) (i : Nat)
      (h : i + 1 < (runLog C st xs).1.length),
      ((runLog C st xs).1.get ⟨i + 1, h⟩).prevHash
        = ((runLog C st xs).1.get ⟨i, Nat.lt_of_succ_lt h⟩).logHash := by
  intro xs
  induction xs with
  | nil => intro st i h; simp [runLog] at h
  | cons x xs ih =>
    intro st i h
    cases i with
    | zero =>
      have hlen : 0 < (runLog C (st.log C x).2 xs).1.length := by
        have := h
        simp only [runLog, List.length_cons] at this
        omega
      show ((runLog C (st.log C x).2 xs).1.get ⟨0, hlen⟩).prevHash
        = ((st.log C x).1).logHash
      rw [runLog_head_prev C _ xs hlen, log_fst_logHash, log_snd_prev]
    | succ j =>
      have hlen : j + 1 < (runLog C (st.log C x).2 xs).1.length := by
        have := h
        simp only [runLog, List.length_cons] at this
        omega
      show ((runLog C (st.log C x).2 xs).1.get ⟨j + 1, hlen⟩).prevHash
        = ((runLog C (st.log C x).2 xs).1.get ⟨j, Nat.lt_of_succ_lt hlen⟩).logHash
      exact ih (st.log C x).2 j hlen

/-- Claim C1: every sequence of log calls on a single, freshly constructed
AuditLogger yields a chain: the previous_hash of entry i+1 equals the
log_hash of entry i, and the previous_hash of entry 0 is the genesis value
of 64 hexadecimal zero characters. -/
theorem log_chain_invariant (C : Crypto) (xs : List LogInput) :
    (∀ (i : Nat) (h : i + 1 < (runLog C initialLogger xs).1.length),
      ((runLog C initialLogger xs).1.get ⟨i + 1, h⟩).prevHash
        = ((runLog C initialLogger xs).1.get ⟨i, Nat.lt_of_succ_lt h⟩).logHash)
    ∧ (∀ h0 : 0 < (runLog C initialLogger xs).1.length,
      ((runLog C initialLogger xs).1.get ⟨0, h0⟩).prevHash = some genesisHash) :=
  ⟨fun i h => runLog_chain_aux C xs initialLogger i h,
   fun h0 => runLog_head_prev C initialLogger xs h0⟩

/-- Witness for C1 at a concrete two-entry run with the toy primitives. -/
theorem log_chain_invariant_witness :
    ((runLog toyCrypto initialLogger [cexInput, cexInput2]).1.get
        ⟨1, by simp [runLog_length]⟩).prevHash
      = ((runLog toyCrypto initialLogger [cexInput, cexInput2]).1.get
        ⟨0, by simp [runLog_length]⟩).logHash
    ∧ ((runLog toyCrypto initialLogger [cexInput, cexInput2]).1.get
        ⟨0, by simp [runLog_length]⟩).prevHash = some genesisHash :=
  ⟨(log_chain_invariant toyCrypto [cexInput, cexInput2]).1 0 (by simp [runLog_length]),
   (log_chain_invariant toyCrypto [cexInput, cexInput2]).2 (by simp [runLog_length])⟩

/-! ## Hex roundtrip and toy-scheme lemmas -/

theorem char_toNat_inj {c₁ c₂ : Char} (h : c₁.toNat = c₂.toNat) : c₁ = c₂ := by
  have h1 : Char.ofNat c₁.toNat = Char.ofNat c₂.toNat := by rw [h]
  rwa [Char.ofNat_toNat, Char.ofNat_toNat] at h1

theorem hexDigitVal_hexDigitChar (m : Fin 16) :
    hexDigitVal (hexDigitChar m.val) = some m := by
  fin_cases m <;> rfl

theorem hexDigitVal_aFlip_hexDigitChar (m : Fin 16) :
    hexDigitVal (if hexDigitChar m.val = 'a' then 'A' else hexDigitChar m.val) = some m := by
  fin_cases m <;> rfl

theorem hexDigitChar_ne_space (m : Fin 16) : hexDigitChar m.val ≠ ' ' := by
  fin_cases m <;> decide

theorem aFlip_ne_space (m : Fin 16) :
    (if hexDigitChar m.val = 'a' then 'A' else hexDigitChar m.val) ≠ ' ' := by
  fin_cases m <;> decide

theorem hexDecodeAux_map_encode (f : Char → Char)
    (hv : ∀ m : Fin 16, hexDigitVal (f (hexDigitChar m.val)) = some m)
    (hs : ∀ m : Fin 16, f (hexDigitChar m.val) ≠ ' ') :
    ∀ bs : List Byte,
      hexDecodeAux
        (((bs.map (fun b => [hexDigitChar (b.val / 16), hexDigitChar (b.val % 16)])).flatten).map f)
        = some bs := by
  intro bs
  induction bs with
  | nil => rfl
  | cons b bs ih =>
    have hhi : b.val / 16 < 16 := by have := b.isLt; omega
    have hlo : b.val % 16 < 16 := by have := b.isLt; omega
    simp only [List.map_cons, List.flatten_cons, List.map_append, List.cons_append,
      List.nil_append]
    rw [hexDecodeAux]
    rw [if_neg (hs ⟨b.val / 16, hhi⟩)]
    rw [hv ⟨b.val / 16, hhi⟩, hv ⟨b.val % 16, hlo⟩]
    rw [ih]
    have hb : (⟨16 * (b.val / 16) + b.val % 16, by omega⟩ : Byte) = b := by
      apply Fin.ext
      show 16 * (b.val / 16) + b.val % 16 = b.val
      omega
    simp only [Option.map_some', hb]

theorem hexDecode_hexEncode (bs : List Byte) : hexDecode (hexEncode bs) = some bs := by
  have h := hexDecodeAux_map_encode id
    (fun m => hexDigitVal_hexDigitChar m) (fun m => hexDigitChar_ne_space m) bs
  simpa [hexDecode, hexEncode] using h

/-- Flipping every lowercase a of a hex string to uppercase A leaves its
decoding unchanged: bytes.fromhex is case-insensitive. -/
theorem hexDecode_upperA_hexEncode (bs : List Byte) :
    hexDecode (upperA (hexEncode bs)) = some bs := by
  have h := hexDecodeAux_map_encode (fun c => if c = 'a' then 'A' else c)
    hexDigitVal_aFlip_hexDigitChar aFlip_ne_space bs
  simpa [hexDecode, upperA, hexEncode] using h

theorem charBytes_inj {c₁ c₂ : Char} (h : charBytes c₁ = charBytes c₂) : c₁ = c₂ := by
  simp only [charBytes, List.cons.injEq, Fin.mk.injEq, and_true] at h
  apply char_toNat_inj
  omega

theorem map_charBytes_flatten_inj :
    ∀ {l₁ l₂ : List Char}, (l₁.map charBytes).flatten = (l₂.map charBytes).flatten → l₁ = l₂
  | [], [], _ => rfl
  | [], c :: _, h => by
    simp only [List.map_nil, List.flatten_nil, List.map_cons, List.flatten_cons, charBytes,
      List.cons_append] at h
    exact absurd h.symm (List.cons_ne_nil _ _)
  | c :: _, [], h => by
    simp only [List.map_nil, List.flatten_nil, List.map_cons, List.flatten_cons, charBytes,
      List.cons_append] at h
    exact absurd h (List.cons_ne_nil _ _)
  | c₁ :: l₁, c₂ :: l₂, h => by
    simp only [List.map_cons, List.flatten_cons] at h
    have hlen : (charBytes c₁).length = (charBytes c₂).length := rfl
    obtain ⟨hhd, htl⟩ := List.append_inj h hlen
    rw [charBytes_inj hhd, map_charBytes_flatten_inj htl]

theorem strBytes_inj {s t : String} (h : strBytes s = strBytes t) : s = t :=
  String.ext (map_charBytes_flatten_inj h)

/-! ## verify_signature helper lemmas -/

theorem verify_signature_some (C : Crypto) (e : AuditEntry) (lh ph s : String)
    (alg : Option String) (h : e.integrity = some ⟨some lh, some ph, some s, alg⟩) :
    verify_signature C e =
      (match hexDecode s with
       | none => false
       | some bytes => C.rsaVerify bytes (lh ++ ":" ++ ph)) := by
  unfold verify_signature
  rw [h]

theorem log_integrity_eq (C : Crypto) (st : AuditLoggerState) (x : LogInput) :
    ((st.log C x).1).integrity = some
      ⟨some (hash_data C (logContent x)), some st.previous_hash,
       some (sign_data C (hash_data C (logContent x) ++ ":" ++ st.previous_hash)),
       some "RSA-SHA256"⟩ := rfl

theorem verify_log_true (C : Crypto) (st : AuditLoggerState) (x : LogInput)
    (hC : ∀ d, C.rsaVerify (C.rsaSign d) d = true) :
    verify_signature C (st.log C x).1 = true := by
  rw [verify_signature_some C _ _ _ _ _ (log_integrity_eq C st x)]
  simp only [sign_data]
  rw [hexDecode_hexEncode]
  exact hC _

theorem string_append_cancel_right {a b c : String} (h : a ++ c = b ++ c) : a = b := by
  apply String.ext
  have hd : a.data ++ c.data = b.data ++ c.data := by
    rw [← String.data_append, ← String.data_append, h]
  exact List.append_cancel_right hd

theorem string_append_cancel_left {a b c : String} (h : a ++ b = a ++ c) : b = c := by
  apply String.ext
  have hd : a.data ++ b.data = a.data ++ c.data := by
    rw [← String.data_append, ← String.data_append, h]
  exact List.append_cancel_left hd

/-- Claim C2 (amended): under the idealized signature hypotheses,
verify_signature accepts every entry produced by log; it returns false, and
in the total model cannot raise, when the integrity block is missing, when a
key of the block is missing, when the signature is not hex, when the
signature is replaced by a string whose hex DECODING differs from the
produced signature bytes, and when log_hash or previous_hash is altered in
any way.  (The claim as frozen also asserted falseness for every altered
signature byte; the counterexample shows hex case flips are accepted.) -/
theorem verify_signature_amended (C : Crypto) (st : AuditLoggerState) (x : LogInput)
    (hC : ∀ d, C.rsaVerify (C.rsaSign d) d = true)
    (hStrict : ∀ s d, C.rsaVerify s d = true → s = C.rsaSign d)
    (hBind : ∀ s d d2, C.rsaVerify s d = true → C.rsaVerify s d2 = true → d = d2) :
    verify_signature C (st.log C x).1 = true
    ∧ verify_signature C (withIntegrity (st.log C x).1 none) = false
    ∧ (∀ it : IntegrityBlock,
        it.log_hash = none ∨ it.previous_hash = none ∨ it.signature = none →
        verify_signature C (withIntegrity (st.log C x).1 (some it)) = false)
    ∧ (∀ s2 : String, hexDecode s2 = none →
        verify_signature C (withSignature (st.log C x).1 s2) = false)
    ∧ (∀ (s2 : String) (bs : List Byte), hexDecode s2 = some bs →
        bs ≠ C.rsaSign (hash_data C (logContent x) ++ ":" ++ st.previous_hash) →
        verify_signature C (withSignature (st.log C x).1 s2) = false)
    ∧ (∀ lh2 : String, lh2 ≠ hash_data C (logContent x) →
        verify_signature C (withLogHash (st.log C x).1 lh2) = false)
    ∧ (∀ ph2 : String, ph2 ≠ st.previous_hash →
        verify_signature C (withPrevHash (st.log C x).1 ph2) = false) := by
  refine ⟨verify_log_true C st x hC, rfl, ?_, ?_, ?_, ?_, ?_⟩
  · rintro ⟨olh, oph, os, oa⟩ (h | h | h) <;> subst h
    · cases oph <;> cases os <;> rfl
    · cases olh <;> cases os <;> rfl
    · cases olh <;> cases oph <;> rfl
  · intro s2 h
    have he : (withSignature (st.log C x).1 s2).integrity = some
        ⟨some (hash_data C (logContent x)), some st.previous_hash, some s2,
         some "RSA-SHA256"⟩ := rfl
    rw [verify_signature_some C _ _ _ _ _ he, h]
  · intro s2 bs h hbs
    have he : (withSignature (st.log C x).1 s2).integrity = some
        ⟨some (hash_data C (logContent x)), some st.previous_hash, some s2,
         some "RSA-SHA256"⟩ := rfl
    rw [verify_signature_some C _ _ _ _ _ he, h]
    cases hv : C.rsaVerify bs (hash_data C (logContent x) ++ ":" ++ st.previous_hash) with
    | false => exact hv
    | true => exact absurd (hStrict bs _ hv) hbs
  · intro lh2 hne
    have he : (withLogHash (st.log C x).1 lh2).integrity = some
        ⟨some lh2, some st.previous_hash,
         some (sign_data C (hash_data C (logContent x) ++ ":" ++ st.previous_hash)),
         some "RSA-SHA256"⟩ := rfl
    rw [verify_signature_some C _ _ _ _ _ he]
    simp only [sign_data]
    rw [hexDecode_hexEncode]
    cases hv : C.rsaVerify
        (C.rsaSign (hash_data C (logContent x) ++ ":" ++ st.previous_hash))
        (lh2 ++ ":" ++ st.previous_hash) with
    | false => exact hv
    | true =>
      have heq := hBind _ _ _ (hC _) hv
      have h1 : hash_data C (logContent x) ++ ":" = lh2 ++ ":" :=
        string_append_cancel_right heq
      exact absurd (string_append_cancel_right h1).symm hne
  · intro ph2 hne
    have he : (withPrevHash (st.log C x).1 ph2).integrity = some
        ⟨some (hash_data C (logContent x)), some ph2,
         some (sign_data C (hash_data C (logContent x) ++ ":" ++ st.previous_hash)),
         some "RSA-SHA256"⟩ := rfl
    rw [verify_signature_some C _ _ _ _ _ he]
    simp only [sign_data]
    rw [hexDecode_hexEncode]
    cases hv : C.rsaVerify
        (C.rsaSign (hash_data C (logContent x) ++ ":" ++ st.previous_hash))
        (hash_data C (logContent x) ++ ":" ++ ph2) with
    | false => exact hv
    | true =>
      have heq := hBind _ _ _ (hC _) hv
      exact absurd (string_append_cancel_left heq).symm hne

set_option maxRecDepth 16384 in
/-- Counterexample for C2 as frozen: on the entry produced by log with the
concrete toy scheme, rewriting the lowercase hex letters of the stored
signature to uppercase alters its bytes but verify_signature still returns
true, because bytes.fromhex is case-insensitive. -/
theorem verify_signature_case_flip_accepted :
    (withSignature (initialLogger.log cexCrypto cexInput).1
        (upperA (sign_data cexCrypto ("z" ++ ":" ++ genesisHash)))).sigHex
      ≠ (initialLogger.log cexCrypto cexInput).1.sigHex
    ∧ verify_signature cexCrypto
        (withSignature (initialLogger.log cexCrypto cexInput).1
          (upperA (sign_data cexCrypto ("z" ++ ":" ++ genesisHash)))) = true := by
  constructor
  · decide
  · have he : (withSignature (initialLogger.log cexCrypto cexInput).1
        (upperA (sign_data cexCrypto ("z" ++ ":" ++ genesisHash)))).integrity = some
        ⟨some "z", some genesisHash,
         some (upperA (sign_data cexCrypto ("z" ++ ":" ++ genesisHash))),
         some "RSA-SHA256"⟩ := rfl
    rw [verify_signature_some _ _ _ _ _ _ he]
    show (match hexDecode (upperA (hexEncode (strBytes ("z" ++ ":" ++ genesisHash)))) with
       | none => false
       | some bytes => cexCrypto.rsaVerify bytes ("z" ++ ":" ++ genesisHash)) = true
    rw [hexDecode_upperA_hexEncode]
    simp [cexCrypto]

theorem verify_signature_amended_witness :
    verify_signature toyCrypto (initialLogger.log toyCrypto cexInput).1 = true
    ∧ verify_signature toyCrypto
        (withIntegrity (initialLogger.log toyCrypto cexInput).1 none) = false := by
  have hC : ∀ d, toyCrypto.rsaVerify (toyCrypto.rsaSign d) d = true := by
    intro d; simp [toyCrypto]
  have hStrict : ∀ s d, toyCrypto.rsaVerify s d = true → s = toyCrypto.rsaSign d := by
    intro s d h; simpa [toyCrypto] using h
  have hBind : ∀ s d d2, toyCrypto.rsaVerify s d = true → toyCrypto.rsaVerify s d2 = true →
      d = d2 := by
    intro s d d2 h1 h2
    simp only [toyCrypto] at h1 h2
    have h1 := eq_of_beq h1
    have h2 := eq_of_beq h2
    exact strBytes_inj (h1 ▸ h2)
  exact ⟨(verify_signature_amended toyCrypto initialLogger cexInput hC hStrict hBind).1,
         (verify_signature_amended toyCrypto initialLogger cexInput hC hStrict hBind).2.1⟩

/-! ## Order lemmas for the key sort used by json.dumps(sort_keys=True) -/

theorem charListLe_total (a b : List Char) : charListLe a b = true ∨ charListLe b a = true := by
  induction a generalizing b with
  | nil => left; rfl
  | cons x xs ih =>
    cases b with
    | nil => right; rfl
    | cons y ys =>
      simp only [charListLe]
      rcases Nat.lt_trichotomy x.toNat y.toNat with h | h | h
      · left; simp [h]
      · rcases ih ys with h2 | h2 <;> [left; right] <;> simp [h, h2]
      · right; simp [h, Nat.lt_asymm h]

theorem charListLe_antisymm : ∀ {a b : List Char},
    charListLe a b = true → charListLe b a = true → a = b
  | [], [], _, _ => rfl
  | [], _ :: _, _, h2 => by simp [charListLe] at h2
  | _ :: _, [], h1, _ => by simp [charListLe] at h1
  | x :: xs, y :: ys, h1, h2 => by
    simp only [charListLe] at h1 h2
    rcases Nat.lt_trichotomy x.toNat y.toNat with h | h | h
    · simp [h, Nat.lt_asymm h] at h2
    · simp only [h, Nat.lt_irrefl, if_false] at h1 h2
      have htl := charListLe_antisymm h1 h2
      rw [char_toNat_inj h, htl]
    · simp [h, Nat.lt_asymm h] at h1

theorem charListLe_trans : ∀ {a b c : List Char},
    charListLe a b = true → charListLe b c = true → charListLe a c = true
  | [], _, _, _, _ => rfl
  | _ :: _, [], _, h1, _ => by simp [charListLe] at h1
  | _ :: _, _ :: _, [], _, h2 => by simp [charListLe] at h2
  | x :: xs, y :: ys, z :: zs, h1, h2 => by
    simp only [charListLe] at h1 h2 ⊢
    by_cases hxy : x.toNat < y.toNat <;> by_cases hyz : y.toNat < z.toNat
    · simp [Nat.lt_trans hxy hyz]
    · simp only [hyz, if_false] at h2
      by_cases hzy : z.toNat < y.toNat
      · simp [hzy] at h2
      · have : y.toNat = z.toNat := by omega
        simp [this ▸ hxy]
    · simp only [hxy, if_false] at h1
      by_cases hyx : y.toNat < x.toNat
      · simp [hyx] at h1
      · have : x.toNat = y.toNat := by omega
        simp [this ▸ hyz]
    · simp only [hxy, hyz, if_false] at h1 h2
      by_cases hyx : y.toNat < x.toNat
      · simp [hyx] at h1
      · by_cases hzy : z.toNat < y.toNat
        · simp [hzy] at h2
        · simp only [hyx, if_false] at h1
          simp only [hzy, if_false] at h2
          have hxz : ¬ x.toNat < z.toNat := by omega
          have hzx : ¬ z.toNat < x.toNat := by omega
          simp only [hxz, if_false, hzx]
          exact charListLe_trans h1 h2

instance : IsTotal (String × String) keyLe :=
  ⟨fun a b => charListLe_total a.1.data b.1.data⟩

instance : IsTrans (String × String) keyLe :=
  ⟨fun _ _ _ h1 h2 => charListLe_trans h1 h2⟩

theorem keyLe_antisymm_fst {a b : String × String} (h1 : keyLe a b) (h2 : keyLe b a) :
    a.1 = b.1 :=
  String.ext (charListLe_antisymm h1 h2)

/-- Sorting by key is invariant under permutations with no duplicate keys. -/
theorem sortPairs_eq_of_perm {l l2 : List (String × String)} (hp : l.Perm l2)
    (hnd : (l.map Prod.fst).Nodup) : sortPairs l = sortPairs l2 := by
  have hperm : (sortPairs l).Perm (sortPairs l2) :=
    (List.perm_insertionSort keyLe l).trans (hp.trans (List.perm_insertionSort keyLe l2).symm)
  have hs1 : (sortPairs l).Sorted keyLe := List.sorted_insertionSort keyLe l
  have hs2 : (sortPairs l2).Sorted keyLe := List.sorted_insertionSort keyLe l2
  have hnd1 : ((sortPairs l).map Prod.fst).Nodup :=
    (((List.perm_insertionSort keyLe l).map Prod.fst).nodup_iff).mpr hnd
  have hnd2 : ((sortPairs l2).map Prod.fst).Nodup :=
    (((List.perm_insertionSort keyLe l2).map Prod.fst).nodup_iff).mpr
      ((hp.map Prod.fst).nodup_iff.mp hnd)
  have hne1 : (sortPairs l).Pairwise (fun a b : String × String => a.1 ≠ b.1) :=
    (List.pairwise_map).mp hnd1
  have hne2 : (sortPairs l2).Pairwise (fun a b : String × String => a.1 ≠ b.1) :=
    (List.pairwise_map).mp hnd2
  exact @List.eq_of_perm_of_sorted _ (fun a b : String × String => keyLe a b ∧ a.1 ≠ b.1)
    ⟨fun a b ha hb => absurd (keyLe_antisymm_fst ha.1 hb.1) ha.2⟩
    _ _ hperm (hs1.and hne1) (hs2.and hne2)

theorem dumpsPairs_eq_map (l : List (String × Json)) :
    Json.dumpsPairs l = l.map (fun kv => (kv.1, Json.dumps kv.2)) := by
  induction l with
  | nil => rfl
  | cons kv kvs ih => simp [Json.dumpsPairs, ih]

/-- Claim C3: the log_hash of every produced entry is the abstract SHA-256
hex digest of the json.dumps(sort_keys=True) serialization of the entry
content, which excludes the integrity block; two entries with the same
logical content get the same log_hash regardless of logger state, and the
serialization is invariant under reordering of fields with distinct keys
(the deterministic field ordering). -/
theorem log_hash_canonical (C : Crypto) (st st2 : AuditLoggerState) (x x2 : LogInput) :
    ((st.log C x).1).logHash = some (C.sha256hex (Json.dumps (.obj (auditLogPairs x))))
    ∧ (x.trace_id = x2.trace_id → x.timestamp = x2.timestamp → x.request = x2.request →
        x.response = x2.response → x.image_audit = x2.image_audit →
        ((st.log C x).1).logHash = ((st2.log C x2).1).logHash)
    ∧ (∀ kvs kvs2 : List (String × Json), kvs.Perm kvs2 → (kvs.map Prod.fst).Nodup →
        Json.dumps (.obj kvs) = Json.dumps (.obj kvs2)) := by
  refine ⟨rfl, ?_, ?_⟩
  · intro h1 h2 h3 h4 h5
    have hx : x = x2 := by
      cases x; cases x2
      simp only [LogInput.mk.injEq]
      exact ⟨h1, h2, h3, h4, h5⟩
    rw [hx]
    rfl
  · intro kvs kvs2 hp hnd
    have hs : sortPairs (Json.dumpsPairs kvs) = sortPairs (Json.dumpsPairs kvs2) := by
      apply sortPairs_eq_of_perm
      · rw [dumpsPairs_eq_map, dumpsPairs_eq_map]
        exact hp.map _
      · rw [dumpsPairs_eq_map]
        have hmm : (kvs.map (fun kv => (kv.1, Json.dumps kv.2))).map Prod.fst
            = kvs.map Prod.fst := by
          rw [List.map_map]
          rfl
        rw [hmm]
        exact hnd
    simp [Json.dumps, hs]

theorem log_hash_canonical_witness :
    ((initialLogger.log toyCrypto cexInput).1).logHash
      = (((AuditLoggerState.mk "w").log toyCrypto cexInput).1).logHash
    ∧ Json.dumps (.obj [("b", Json.null), ("a", Json.num 1)])
      = Json.dumps (.obj [("a", Json.num 1), ("b", Json.null)]) :=
  ⟨(log_hash_canonical toyCrypto initialLogger ⟨"w"⟩ cexInput cexInput).2.1
      rfl rfl rfl rfl rfl,
   (log_hash_canonical toyCrypto initialLogger initialLogger cexInput cexInput).2.2
      [("b", Json.null), ("a", Json.num 1)] [("a", Json.num 1), ("b", Json.null)]
      (List.Perm.swap _ _ _) (by decide)⟩

/-- Claim C4: verify_signature reads only the integrity block: entries with
identical integrity blocks verify identically, and an appended entry whose
content fields (id, timestamp, request, response, image_audit) are all
replaced, with the integrity block left unchanged, still verifies as true. -/
theorem verify_signature_content_independent :
    (∀ (C : Crypto) (e e2 : AuditEntry), e.integrity = e2.integrity →
      verify_signature C e = verify_signature C e2)
    ∧ (∀ (C : Crypto) (st : AuditLoggerState) (x : LogInput)
        (id2 ts2 : String) (req2 resp2 : Json) (ia2 : Option Json),
        (∀ d, C.rsaVerify (C.rsaSign d) d = true) →
        verify_signature C
          { (st.log C x).1 with
            id := id2
            timestamp := ts2
            request := req2
            response := resp2
            image_audit := ia2 } = true) := by
  constructor
  · intro C e e2 h
    unfold verify_signature
    rw [h]
  · intro C st x id2 ts2 req2 resp2 ia2 hC
    have hsame : verify_signature C
        { (st.log C x).1 with
          id := id2
          timestamp := ts2
          request := req2
          response := resp2
          image_audit := ia2 }
        = verify_signature C (st.log C x).1 := by
      unfold verify_signature
      rfl
    rw [hsame]
    exact verify_log_true C st x hC

theorem verify_signature_content_independent_witness :
    verify_signature toyCrypto
      { (initialLogger.log toyCrypto cexInput).1 with
        id := "tampered"
        timestamp := "ts9"
        request := Json.null
        response := Json.null
        image_audit := none } = true :=
  verify_signature_content_independent.2 toyCrypto initialLogger cexInput "tampered" "ts9"
    Json.null Json.null none (fun _ => by simp [toyCrypto])

/-! ## C8: the chain cursor does not advance when hashing or signing fails -/

theorem logE_ok_prev (CE : CryptoE) (st : AuditLoggerState) (x : LogInput) (e : AuditEntry)
    (h : (st.logE CE x).1 = .ok e) : e.prevHash = some st.previous_hash := by
  rcases h1 : CE.sha256hex (logContent x) with err1 | lh
  · simp [AuditLoggerState.logE, h1] at h
  · rcases h2 : CE.rsaSign (lh ++ ":" ++ st.previous_hash) with err2 | sb
    · simp [AuditLoggerState.logE, h1, h2] at h
    · simp only [AuditLoggerState.logE, h1, h2, Except.ok.injEq] at h
      rw [← h]
      rfl

/-- Claim C8: when the hash or the signature computation inside log raises,
the logger returns no entry, its previous_hash cursor is unchanged, and any
later successful log call (under possibly recovered primitives) chains to
the cursor as it was before the failed call, that is, to the last
successfully appended entry. -/
theorem log_atomic_on_failure (CE : CryptoE) (st : AuditLoggerState) (x : LogInput)
    (err : String) (h : (st.logE CE x).1 = .error err) :
    (st.logE CE x).2 = st
    ∧ (∀ (CE2 : CryptoE) (x2 : LogInput) (e2 : AuditEntry),
        (((st.logE CE x).2).logE CE2 x2).1 = .ok e2 → e2.prevHash = some st.previous_hash) := by
  have hst : (st.logE CE x).2 = st := by
    rcases h1 : CE.sha256hex (logContent x) with err1 | lh
    · simp [AuditLoggerState.logE, h1]
    · rcases h2 : CE.rsaSign (lh ++ ":" ++ st.previous_hash) with err2 | sb
      · simp [AuditLoggerState.logE, h1, h2]
      · exfalso
        simp [AuditLoggerState.logE, h1, h2] at h
  refine ⟨hst, ?_⟩
  intro CE2 x2 e2 h2
  rw [hst] at h2
  exact logE_ok_prev CE2 st x2 e2 h2

theorem log_atomic_on_failure_witness :
    (initialLogger.logE ceFail cexInput).1 = .error "hash unavailable"
    ∧ (initialLogger.logE ceFail cexInput).2 = initialLogger :=
  ⟨rfl, (log_atomic_on_failure ceFail initialLogger cexInput "hash unavailable" rfl).1⟩

/-! ## C9: key material loading and generation -/

theorem priv_ne_pub (kd : String) : private_key_file kd ≠ public_key_file kd := by
  intro h
  have h2 := string_append_cancel_left (a := kd)
    (b := "/audit_private_key.pem") (c := "/audit_public_key.pem") h
  exact absurd h2 (by decide)

/-- Claim C9: on construction, an existing key file is loaded verbatim and
the file system is left untouched (even when the public key file is missing
and loading fails); fresh material is generated and persisted only when the
key file is absent, and a reconstruction over the resulting file system
loads exactly the persisted bytes - for the RSA pair of AuditLogger and for
the symmetric key of ImageAuditor.  (Freshness from a cryptographically
secure source is carried by the fresh-bytes arguments standing for
os.urandom and rsa.generate_private_key.) -/
theorem key_material_idempotent (kd : String) (fs : FS) (p q k fp fq fr : List Byte) :
    (fs (private_key_file kd) = some p → fs (public_key_file kd) = some q →
      loggerInitKeys kd fp fq fs = (.ok (p, q), fs))
    ∧ (fs (private_key_file kd) = some p → fs (public_key_file kd) = none →
      loggerInitKeys kd fp fq fs = (.error "Public key not found", fs))
    ∧ (fs (private_key_file kd) = none →
      (loggerInitKeys kd fp fq fs).1 = .ok (fp, fq)
      ∧ (loggerInitKeys kd fp fq fs).2 (private_key_file kd) = some fp
      ∧ (loggerInitKeys kd fp fq fs).2 (public_key_file kd) = some fq
      ∧ (∀ r, r ≠ private_key_file kd → r ≠ public_key_file kd →
          (loggerInitKeys kd fp fq fs).2 r = fs r)
      ∧ loggerInitKeys kd fp fq ((loggerInitKeys kd fp fq fs).2)
          = (.ok (fp, fq), (loggerInitKeys kd fp fq fs).2))
    ∧ (fs (image_key_file kd) = some k → imageInitKey kd fr fs = (k, fs))
    ∧ (fs (image_key_file kd) = none →
      (imageInitKey kd fr fs).1 = fr
      ∧ (imageInitKey kd fr fs).2 (image_key_file kd) = some fr
      ∧ (∀ r, r ≠ image_key_file kd → (imageInitKey kd fr fs).2 r = fs r)
      ∧ imageInitKey kd fr ((imageInitKey kd fr fs).2)
          = (fr, (imageInitKey kd fr fs).2)) := by
  refine ⟨?_, ?_, ?_, ?_, ?_⟩
  · intro h1 h2
    simp [loggerInitKeys, h1, h2]
  · intro h1 h2
    simp [loggerInitKeys, h1, h2]
  · intro h1
    refine ⟨by simp [loggerInitKeys, h1], ?_, ?_, ?_, ?_⟩
    · simp [loggerInitKeys, h1, FS.write, priv_ne_pub kd]
    · simp [loggerInitKeys, h1, FS.write]
    · intro r hr1 hr2
      simp [loggerInitKeys, h1, FS.write, hr1, hr2]
    · simp [loggerInitKeys, h1, FS.write, priv_ne_pub kd]
  · intro h1
    simp [imageInitKey, h1]
  · intro h1
    refine ⟨by simp [imageInitKey, h1], ?_, ?_, ?_⟩
    · simp [imageInitKey, h1, FS.write]
    · intro r hr
      simp [imageInitKey, h1, FS.write, hr]
    · simp [imageInitKey, h1, FS.write]

theorem key_material_idempotent_witness :
    (loggerInitKeys "keys" [1] [2] emptyFS).1 = .ok ([1], [2])
    ∧ (loggerInitKeys "keys" [1] [2] emptyFS).2 (private_key_file "keys") = some [1]
    ∧ (imageInitKey "keys" [3] emptyFS).1 = [3] :=
  ⟨((key_material_idempotent "keys" emptyFS [] [] [] [1] [2] [3]).2.2.1 rfl).1,
   ((key_material_idempotent "keys" emptyFS [] [] [] [1] [2] [3]).2.2.1 rfl).2.1,
   ((key_material_idempotent "keys" emptyFS [] [] [] [1] [2] [3]).2.2.2.2 rfl).1⟩

/-! ## C5: storing identical content twice -/

/-- Counterexample for C5 as frozen: two audit_image calls on the same bytes
return the same content hash and storage path, but the stored blob of the
second call is NOT byte-identical to the first, because each call prefixes a
fresh random 12-byte IV (and encrypts with it). -/
theorem audit_image_not_byte_identical :
    (audit_image toySha toyGCM [] "logs" emptyFS [1, 2, 3] iv1 "t" "n1" "d1").1.storage_path
      = (audit_image toySha toyGCM [] "logs"
          ((audit_image toySha toyGCM [] "logs" emptyFS [1, 2, 3] iv1 "t" "n1" "d1").2)
          [1, 2, 3] iv2 "t" "n2" "d2").1.storage_path
    ∧ (audit_image toySha toyGCM [] "logs" emptyFS [1, 2, 3] iv1 "t" "n1" "d1").1.image_hash
      = (audit_image toySha toyGCM [] "logs"
          ((audit_image toySha toyGCM [] "logs" emptyFS [1, 2, 3] iv1 "t" "n1" "d1").2)
          [1, 2, 3] iv2 "t" "n2" "d2").1.image_hash
    ∧ (audit_image toySha toyGCM [] "logs"
          ((audit_image toySha toyGCM [] "logs" emptyFS [1, 2, 3] iv1 "t" "n1" "d1").2)
          [1, 2, 3] iv2 "t" "n2" "d2").2
        ((audit_image toySha toyGCM [] "logs" emptyFS [1, 2, 3] iv1 "t" "n1" "d1").1.storage_path)
      = some (encrypt_file toyGCM [] iv2 [1, 2, 3])
    ∧ encrypt_file toyGCM [] iv1 [1, 2, 3] ≠ encrypt_file toyGCM [] iv2 [1, 2, 3] :=
  ⟨rfl, rfl, by decide, by decide⟩

/-- Claim C5 (amended): two audit_image calls with the same bytes return
identical content hashes and identical storage paths (derived from the hash,
sharded by its first 8 hex characters); the second call overwrites that one
path and touches no other; the overwritten content is freshly encrypted and,
since each call prefixes its own 12-byte IV, differs from the first blob
whenever the two drawn IVs differ (byte-identical only on an IV collision). -/
theorem audit_image_idempotent_amended (sha : List Byte → String) (G : GCMCipher)
    (key : List Byte) (dir : String) (fs : FS) (b iva ivb : List Byte)
    (tid na da tid2 nb db : String)
    (hlen1 : iva.length = 12) (hlen2 : ivb.length = 12) :
    (audit_image sha G key dir fs b iva tid na da).1.image_hash
      = (audit_image sha G key dir ((audit_image sha G key dir fs b iva tid na da).2)
          b ivb tid2 nb db).1.image_hash
    ∧ (audit_image sha G key dir fs b iva tid na da).1.storage_path
      = (audit_image sha G key dir ((audit_image sha G key dir fs b iva tid na da).2)
          b ivb tid2 nb db).1.storage_path
    ∧ (audit_image sha G key dir ((audit_image sha G key dir fs b iva tid na da).2)
          b ivb tid2 nb db).2
        ((audit_image sha G key dir fs b iva tid na da).1.storage_path)
      = some (encrypt_file G key ivb b)
    ∧ (∀ r, r ≠ (audit_image sha G key dir fs b iva tid na da).1.storage_path →
        (audit_image sha G key dir ((audit_image sha G key dir fs b iva tid na da).2)
          b ivb tid2 nb db).2 r
        = ((audit_image sha G key dir fs b iva tid na da).2) r)
    ∧ (iva ≠ ivb → encrypt_file G key iva b ≠ encrypt_file G key ivb b) := by
  refine ⟨rfl, rfl, ?_, ?_, ?_⟩
  · simp [audit_image, FS.write]
  · intro r hr
    simp only [audit_image] at hr
    simp [audit_image, FS.write, hr]
  · intro hne heq
    have h1 : (encrypt_file G key iva b).take 12 = iva := by
      unfold encrypt_file
      rw [List.append_assoc, ← hlen1, List.take_left]
    have h2 : (encrypt_file G key ivb b).take 12 = ivb := by
      unfold encrypt_file
      rw [List.append_assoc, ← hlen2, List.take_left]
    rw [heq, h2] at h1
    exact hne h1.symm

theorem audit_image_idempotent_amended_witness :
    (audit_image toySha toyGCM [] "logs" emptyFS [1, 2, 3] iv1 "t" "n1" "d1").1.image_hash
      = (audit_image toySha toyGCM [] "logs"
          ((audit_image toySha toyGCM [] "logs" emptyFS [1, 2, 3] iv1 "t" "n1" "d1").2)
          [1, 2, 3] iv2 "u" "n2" "d2").1.image_hash
    ∧ encrypt_file toyGCM [] iv1 [1, 2, 3] ≠ encrypt_file toyGCM [] iv2 [1, 2, 3] :=
  ⟨(audit_image_idempotent_amended toySha toyGCM [] "logs" emptyFS [1, 2, 3] iv1 iv2
      "t" "n1" "d1" "u" "n2" "d2" (by decide) (by decide)).1,
   (audit_image_idempotent_amended toySha toyGCM [] "logs" emptyFS [1, 2, 3] iv1 iv2
      "t" "n1" "d1" "u" "n2" "d2" (by decide) (by decide)).2.2.2.2 (by decide)⟩

/-! ## C6: a deletion failure aborts the sweep -/

/-- Counterexample for C6 as frozen: with two expired artifacts where
removing the first fails, cleanup_expired raises (returns the error) instead
of reporting and continuing, and the second expired artifact is not swept. -/
theorem cleanup_expired_aborts_on_failure :
    cleanup_expired 604800 0 (fun p => p == "a.enc")
        [⟨"a.enc", 0⟩, ⟨"b.enc", 0⟩]
      = (.error "os.remove failed: a.enc", [⟨"a.enc", 0⟩, ⟨"b.enc", 0⟩]) := rfl

/-- Claim C6 (amended): deletion is not best-effort: when removing an
expired artifact fails, cleanup_expired propagates the error to the caller,
deletes nothing at or after the failing artifact, and returns no count;
only the expired artifacts strictly before the failing one are deleted. -/
theorem cleanup_expired_failure_propagates (now tz : Int) (rf : String → Bool)
    (pre post : List StoredFile) (f : StoredFile)
    (hpre : ∀ g ∈ pre, isExpired now tz g = true → rf g.path = false)
    (hf : isExpired now tz f = true) (hrf : rf f.path = true) :
    cleanup_expired now tz rf (pre ++ f :: post)
      = (.error ("os.remove failed: " ++ f.path),
         pre.filter (fun g => !isExpired now tz g) ++ f :: post) := by
  induction pre with
  | nil => simp [cleanup_expired, hf, hrf]
  | cons g pre ih =>
    have hpre2 : ∀ g2 ∈ pre, isExpired now tz g2 = true → rf g2.path = false :=
      fun g2 hg2 => hpre g2 (List.mem_cons_of_mem _ hg2)
    have ihx := ih hpre2
    cases hg : isExpired now tz g with
    | true =>
      have hrg : rf g.path = false := hpre g (List.mem_cons_self _ _) hg
      simp [cleanup_expired, hg, hrg, ihx]
    | false =>
      simp [cleanup_expired, hg, ihx]

/-! ## C7: what the sweep deletes -/

theorem isExpired_utc_iff (now : Int) (f : StoredFile) :
    isExpired now 0 f = (pyEndsWith f.path ".enc" && decide (7 * 86400 ≤ now - f.mtime)) := by
  unfold isExpired ageDays
  congr 1
  rw [Int.fdiv_eq_ediv _ (by omega)]
  rw [decide_eq_decide]
  omega

theorem cleanup_expired_no_failure (now tz : Int) (files : List StoredFile) :
    cleanup_expired now tz (fun _ => false) files
      = (.ok (files.countP (fun f => isExpired now tz f)),
         files.filter (fun f => !isExpired now tz f)) := by
  induction files with
  | nil => rfl
  | cons f fs ih =>
    cases hf : isExpired now tz f with
    | true => simp [cleanup_expired, hf, ih, List.countP_cons]
    | false => simp [cleanup_expired, hf, ih, List.countP_cons]

theorem cleanup_single_kept (now tz : Int) (f : StoredFile)
    (h : isExpired now tz f = false) :
    cleanup_expired now tz (fun _ => false) [f] = (.ok 0, [f]) := by
  simp [cleanup_expired, h]

theorem cleanup_single_removed (now tz : Int) (f : StoredFile)
    (h : isExpired now tz f = true) :
    cleanup_expired now tz (fun _ => false) [f] = (.ok 1, []) := by
  simp [cleanup_expired, h]

/-- Counterexample for C7 as frozen: in a process whose local timezone is
one hour west of UTC (offset -3600 s), a sweep at epoch 603000 deletes an
artifact stored at epoch 0, although its age, 603000 s, is less than 7 days
(604800 s): the claim says no younger artifact is deleted.  The skew comes
from comparing datetime.fromtimestamp (local) with datetime.utcnow. -/
theorem cleanup_expired_tz_skew :
    cleanup_expired 603000 (-3600) (fun _ => false) [⟨"a.enc", 0⟩] = (.ok 1, [])
    ∧ (603000 : Int) - 0 < 7 * 86400 :=
  ⟨rfl, by decide⟩

/-- Claim C7 (amended): with the process local timezone at UTC (offset 0),
cleanup_expired at time T deletes exactly the .enc artifacts whose age at T
truncated to whole days is at least 7 - equivalently, age at least exactly
7 * 86400 seconds - keeps every younger artifact, and returns the count of
deleted artifacts; in particular an artifact stored at T0 survives a sweep
at T0 + 6 days and is deleted at T0 + 7 days + 1 hour.  (In a non-UTC local
timezone the computed ages are shifted by the UTC offset, as the
counterexample shows.) -/
theorem cleanup_expired_utc_exact (now : Int) (files : List StoredFile) :
    cleanup_expired now 0 (fun _ => false) files
      = (.ok (files.countP (fun f => isExpired now 0 f)),
         files.filter (fun f => !isExpired now 0 f))
    ∧ (∀ f : StoredFile, isExpired now 0 f
        = (pyEndsWith f.path ".enc" && decide (7 * 86400 ≤ now - f.mtime)))
    ∧ (∀ t0 : Int,
        cleanup_expired (t0 + 6 * 86400) 0 (fun _ => false) [⟨"a.enc", t0⟩]
          = (.ok 0, [⟨"a.enc", t0⟩])
        ∧ cleanup_expired (t0 + 7 * 86400 + 3600) 0 (fun _ => false) [⟨"a.enc", t0⟩]
          = (.ok 1, [])) := by
  refine ⟨cleanup_expired_no_failure now 0 files, fun f => isExpired_utc_iff now f, ?_⟩
  intro t0
  have hp : pyEndsWith "a.enc" ".enc" = true := by decide
  have h6 : isExpired (t0 + 6 * 86400) 0 ⟨"a.enc", t0⟩ = false := by
    rw [isExpired_utc_iff]
    simp only [hp, Bool.true_and, decide_eq_false_iff_not]
    omega
  have h7 : isExpired (t0 + 7 * 86400 + 3600) 0 ⟨"a.enc", t0⟩ = true := by
    rw [isExpired_utc_iff]
    simp only [hp, Bool.true_and, decide_eq_true_eq]
    omega
  exact ⟨cleanup_single_kept _ _ _ h6, cleanup_single_removed _ _ _ h7⟩

/-! ## C10: calculate_pii_score stays in [0, 1] -/

theorem roundHalfEven_bounds {x : ℚ} (h0 : 0 ≤ x) (h1 : x ≤ 100) :
    0 ≤ roundHalfEven x ∧ roundHalfEven x ≤ 100 := by
  have hf0 : 0 ≤ ⌊x⌋ := Int.floor_nonneg.mpr h0
  have hfl : (⌊x⌋ : ℚ) ≤ x := Int.floor_le x
  have hle : ⌊x⌋ ≤ 100 := by
    have h : (⌊x⌋ : ℚ) ≤ 100 := le_trans hfl h1
    exact_mod_cast h
  unfold roundHalfEven
  split_ifs with hA hB hC
  · exact ⟨hf0, hle⟩
  · have h2 : (⌊x⌋ : ℚ) + 1/2 < x := by linarith
    have hlt : (⌊x⌋ : ℚ) < 100 := by linarith
    have hlt2 : ⌊x⌋ < 100 := by exact_mod_cast hlt
    exact ⟨by omega, by omega⟩
  · exact ⟨hf0, hle⟩
  · have h2 : (⌊x⌋ : ℚ) + 1/2 ≤ x := by
      have : ¬ (x - ⌊x⌋ < 1/2) := hA
      linarith
    have hlt : (⌊x⌋ : ℚ) < 100 := by linarith
    have hlt2 : ⌊x⌋ < 100 := by exact_mod_cast hlt
    exact ⟨by omega, by omega⟩

theorem round2_bounds {x : ℚ} (h0 : 0 ≤ x) (h1 : x ≤ 1) :
    0 ≤ round2 x ∧ round2 x ≤ 1 := by
  have h := roundHalfEven_bounds (x := x * 100) (by positivity) (by linarith)
  unfold round2
  constructor
  · apply div_nonneg
    · exact_mod_cast h.1
    · norm_num
  · rw [div_le_one (by norm_num)]
    exact_mod_cast h.2

/-- Claim C10: for every regex engine and every input string, the PII score
is in the closed interval from 0 to 1 and is an integer multiple of 1/100
(two decimal places); the empty string scores exactly 0 (the division by the
text length is guarded and never happens with a zero denominator). -/
theorem calculate_pii_score_range (findall : String → String → List String) (text : String) :
    (0 ≤ calculate_pii_score findall text ∧ calculate_pii_score findall text ≤ 1
      ∧ ∃ k : ℤ, calculate_pii_score findall text = (k : ℚ) / 100)
    ∧ calculate_pii_score findall "" = 0 := by
  refine ⟨?_, rfl⟩
  by_cases ht : text.length = 0
  · have hz : calculate_pii_score findall text = 0 := by
      unfold calculate_pii_score
      rw [if_pos ht]
    rw [hz]
    exact ⟨le_refl 0, by norm_num, 0, by norm_num⟩
  · have hlen : (0:ℚ) < (text.length : ℚ) := by
      have h : 0 < text.length := Nat.pos_of_ne_zero ht
      exact_mod_cast h
    have hval : calculate_pii_score findall text
        = round2 (min
            (((PII_PATTERNS.map
                (fun kv => ((findall kv.2 text).map String.length).sum)).sum : ℚ)
              / (text.length : ℚ)) 1) := by
      unfold calculate_pii_score
      rw [if_neg ht]
    have h0 : (0:ℚ) ≤ min
        (((PII_PATTERNS.map
            (fun kv => ((findall kv.2 text).map String.length).sum)).sum : ℚ)
          / (text.length : ℚ)) 1 := by
      apply le_min
      · exact div_nonneg (Nat.cast_nonneg _) hlen.le
      · norm_num
    have h1 : min
        (((PII_PATTERNS.map
            (fun kv => ((findall kv.2 text).map String.length).sum)).sum : ℚ)
          / (text.length : ℚ)) 1 ≤ 1 := min_le_right _ _
    have hb := round2_bounds h0 h1
    rw [hval]
    exact ⟨hb.1, hb.2,
      roundHalfEven (min
        (((PII_PATTERNS.map
            (fun kv => ((findall kv.2 text).map String.length).sum)).sum : ℚ)
          / (text.length : ℚ)) 1 * 100), rfl⟩

theorem cleanup_expired_failure_propagates_witness :
    cleanup_expired 604800 0 (fun p => p == "b.enc")
        ([⟨"a.enc", 0⟩] ++ ⟨"b.enc", 0⟩ :: [⟨"c.enc", 0⟩])
      = (.error ("os.remove failed: " ++ "b.enc"),
         [(⟨"a.enc", 0⟩ : StoredFile)].filter (fun g => !isExpired 604800 0 g)
           ++ ⟨"b.enc", 0⟩ :: [⟨"c.enc", 0⟩]) :=
  cleanup_expired_failure_propagates 604800 0 (fun p => p == "b.enc")
    [⟨"a.enc", 0⟩] [⟨"c.enc", 0⟩] ⟨"b.enc", 0⟩
    (by decide) (by decide) (by decide)
